import Mathlib

set_option maxRecDepth 10000
set_option linter.unusedVariables false

/-!
Verification of the consistency-analysis engine and confidence gate of the
`llm-output-stability-gate` repository.

The Python source is shallowly embedded as follows:
* Python `str` values become Lean `String`; the character-level operations
  (`len`, `lower`, `split`, `strip`) are re-implemented structurally over
  `String.data` so that every definition evaluates inside the kernel.
* Python `float` values (confidence scores, thresholds, variances,
  similarity ratios) are modelled as `ℚ`.
* The external generation/scoring collaborator (the `uqlm` library) and the
  text-diff utility (Python's standard `difflib`, not part of the repository
  sources) are modelled from the spec, as marked on the individual
  definitions.
-/

namespace PyStr

/-- Model of Python `s.split(sep)` for a one-character separator: split at every
occurrence of `c`, keeping empty segments (`"".split(c) == [""]`). -/
def splitOnChar (c : Char) : List Char → List (List Char)
  | [] => [[]]
  | x :: xs =>
    if x = c then
      [] :: splitOnChar c xs
    else
      match splitOnChar c xs with
      | [] => [[x]]
      | t :: ts => (x :: t) :: ts

/-- Model of Python `s.split()` with no separator: split on runs of whitespace
and drop empty segments. -/
def splitWsChar (l : List Char) : List (List Char) :=
  (splitPred l).filter (fun w => w ≠ [])
where
  /-- split at every whitespace character, keeping empty segments -/
  splitPred : List Char → List (List Char)
    | [] => [[]]
    | x :: xs =>
      if x.isWhitespace then
        [] :: splitPred xs
      else
        match splitPred xs with
        | [] => [[x]]
        | t :: ts => (x :: t) :: ts

/-- Python `r.split('\n')` on a string, as a list of strings. -/
def pySplitNl (s : String) : List String :=
  (splitOnChar '\n' s.data).map String.mk

/-- Python `r.split()` on a string, as a list of strings. -/
def pySplitWs (s : String) : List String :=
  (splitWsChar s.data).map String.mk

/-- Python `s.lower()` (restricted, like `Char.toLower`, to ASCII letters;
no claim depends on non-ASCII case folding). -/
def pyLower (s : String) : String :=
  String.mk (s.data.map Char.toLower)

/-- Python `len(s)`: the number of characters. -/
def pyLen (s : String) : Nat :=
  s.data.length

/-- Python `s.strip()`: remove leading and trailing whitespace. -/
def pyStrip (s : String) : String :=
  String.mk ((((s.data.dropWhile Char.isWhitespace).reverse.dropWhile Char.isWhitespace).reverse))

end PyStr

namespace UQLMGuard

open PyStr

/-- Model of one entry of the inconsistency dictionaries built by
`UQLMAnalyzer._find_inconsistencies` (`uqlm_guard/core/analyzer.py`).
The structural entry populates `lengths`/`variance` (its `details` dict),
the conceptual entry populates `keyword`/`frequency`; absent dict keys are
`none`. -/
structure Inconsistency where
  type : String
  severity : String
  description : String
  lengths : Option (List Nat) := none
  variance : Option ℚ := none
  keyword : Option String := none
  frequency : Option ℚ := none
deriving DecidableEq, Repr

/-- Model of `UQLMAnalyzer._generate_recommendation` (`uqlm_guard/core/analyzer.py`
lines 183-199).  `Counter(...)["high"] > 0` is modelled by `countP`. -/
def generate_recommendation (confidence : ℚ) (inconsistencies : List Inconsistency) : String :=
  if confidence ≥ 0.8 then
    "HIGH CONFIDENCE - Output appears reliable"
  else if confidence ≥ 0.6 then
    if 0 < inconsistencies.countP (fun inc => inc.severity == "high") then
      "MEDIUM CONFIDENCE - Review flagged issues before use"
    else
      "MEDIUM CONFIDENCE - Acceptable with review"
  else if confidence ≥ 0.4 then
    "LOW CONFIDENCE - Manual review required, significant uncertainty"
  else
    "VERY LOW CONFIDENCE - Do not use, highly unreliable output"

/-- Python `lengths = [len(r) for r in responses]` in `_find_inconsistencies`. -/
def responseLengths (responses : List String) : List Nat :=
  responses.map pyLen

/-- Python `avg_length = sum(lengths) / len(lengths)` (Python raises on an empty
list; the model's `ℚ` division returns 0 there, and every claim assumes a
non-empty response list). -/
def avgLength (responses : List String) : ℚ :=
  ((responseLengths responses).map (fun l => (l : ℚ))).sum /
    ((responseLengths responses).length : ℚ)

/-- Python `length_variance = sum((l - avg_length) ** 2 for l in lengths) / len(lengths)`. -/
def lengthVariance (responses : List String) : ℚ :=
  ((responseLengths responses).map (fun l => ((l : ℚ) - avgLength responses) ^ 2)).sum /
    ((responseLengths responses).length : ℚ)

/-- Python `min` over a non-empty integer list (0 on the empty list, which the
source never reaches). -/
def minNat : List Nat → Nat
  | [] => 0
  | x :: xs => xs.foldl Nat.min x

/-- Python `max` over a non-empty integer list. -/
def maxNat : List Nat → Nat
  | [] => 0
  | x :: xs => xs.foldl Nat.max x

/-- The structural check of `_find_inconsistencies` (lines 99-110): one
`structural/high` entry when `length_variance > avg_length * 0.5`, carrying
the min/max spread in its description and the raw lengths and variance as
details. -/
def structuralEntries (responses : List String) : List Inconsistency :=
  if avgLength responses * 0.5 < lengthVariance responses then
    [{ type := "structural", severity := "high",
       description := "Response lengths vary significantly (" ++
         toString (minNat (responseLengths responses)) ++ " to " ++
         toString (maxNat (responseLengths responses)) ++ " chars)",
       lengths := some (responseLengths responses),
       variance := some (lengthVariance responses) }]
  else []

/-- Python `keywords = [w for w in response.lower().split() if len(w) > 5]`
(lines 113-118); the per-response keyword set. -/
def pyKeywords (response : String) : List String :=
  (pySplitWs (pyLower response)).filter (fun w => 5 < pyLen w)

/-- Python `count = sum(1 for kw_set in keywords_per_response if keyword in kw_set)`. -/
def keywordCount (responses : List String) (keyword : String) : Nat :=
  (responses.map pyKeywords).countP (fun kws => decide (keyword ∈ kws))

/-- Python `all_keywords = set().union(*keywords_per_response)`: iteration order of a
Python set is unspecified, so the union is enumerated as the duplicate-free
`dedup` of the concatenation. -/
def allKeywords (responses : List String) : List String :=
  ((responses.map pyKeywords).flatten).dedup

/-- The conceptual entry emitted for one keyword of the union when it appears
in some but not all responses (lines 122-131). -/
def conceptualEntry (responses : List String) (keyword : String) : Option Inconsistency :=
  if 0 < keywordCount responses keyword ∧ keywordCount responses keyword < responses.length then
    some { type := "conceptual", severity := "medium",
           description := "Keyword \x27" ++ keyword ++ "\x27 appears in " ++
             toString (keywordCount responses keyword) ++ "/" ++
             toString responses.length ++ " responses",
           keyword := some keyword,
           frequency := some ((keywordCount responses keyword : ℚ) / (responses.length : ℚ)) }
  else none

/-- Model of `UQLMAnalyzer._find_inconsistencies` (`uqlm_guard/core/analyzer.py`
lines 95-133): the structural check's entries followed by one conceptual
entry per partially-present keyword of the union. -/
def find_inconsistencies (responses : List String) : List Inconsistency :=
  structuralEntries responses ++ (allKeywords responses).filterMap (conceptualEntry responses)

/-- Model of `UQLMAnalyzer._find_consensus` (`uqlm_guard/core/analyzer.py` lines
135-156): the set of the first response's distinct lines intersected
sequentially with each later response's line set (`common_lines &= set(lines)`);
Python's unordered set is modelled by a duplicate-free list. -/
def find_consensus (responses : List String) : List String :=
  match responses with
  | [] => []
  | r0 :: rest =>
    rest.foldl (fun common r => common.filter (fun line => decide (line ∈ pySplitNl r)))
      ((pySplitNl r0).dedup)

end UQLMGuard

namespace Difflib

/-- Modelled from the spec: the Text Diff Utility leaf (Python's standard
`difflib`, not part of the repository sources).  `matchLen` is the length of
the longest common prefix of two sequences. -/
def matchLen {α : Type} [DecidableEq α] : List α → List α → Nat
  | x :: xs, y :: ys => if x = y then matchLen xs ys + 1 else 0
  | _, _ => 0

/-- Modelled from the spec: all candidate matches `(i, j, run length)` between
two sequences. -/
def candidates {α : Type} [DecidableEq α] (a b : List α) : List (Nat × Nat × Nat) :=
  (List.range a.length).flatMap fun i =>
    (List.range b.length).map fun j => (i, j, matchLen (a.drop i) (b.drop j))

/-- Keep the candidate with the strictly larger run length (so the earliest
longest match wins). -/
def pickLonger (best c : Nat × Nat × Nat) : Nat × Nat × Nat :=
  if best.2.2 < c.2.2 then c else best

/-- Modelled from the spec: the longest matching block between two sequences,
`(0, 0, 0)` when there is none. -/
def longestMatch {α : Type} [DecidableEq α] (a b : List α) : Nat × Nat × Nat :=
  (candidates a b).foldl pickLonger (0, 0, 0)

/-- Shift block coordinates of a sub-problem back into the enclosing
sequences. -/
def shiftBlocks (di dj : Nat) (l : List (Nat × Nat × Nat)) : List (Nat × Nat × Nat) :=
  l.map fun t => (t.1 + di, t.2.1 + dj, t.2.2)

/-- Modelled from the spec: recursively collect matching blocks around the
longest match (fuel-driven so that it evaluates in the kernel; the initial
fuel `a.length` always suffices). -/
def matchingBlocksGo {α : Type} [DecidableEq α] : Nat → List α → List α → List (Nat × Nat × Nat)
  | 0, _, _ => []
  | fuel + 1, a, b =>
    if (longestMatch a b).2.2 = 0 then []
    else
      matchingBlocksGo fuel (a.take (longestMatch a b).1) (b.take (longestMatch a b).2.1) ++
        longestMatch a b ::
          shiftBlocks ((longestMatch a b).1 + (longestMatch a b).2.2)
            ((longestMatch a b).2.1 + (longestMatch a b).2.2)
            (matchingBlocksGo fuel
              (a.drop ((longestMatch a b).1 + (longestMatch a b).2.2))
              (b.drop ((longestMatch a b).2.1 + (longestMatch a b).2.2)))

/-- Modelled from the spec: the sorted matching blocks of two sequences. -/
def matchingBlocks {α : Type} [DecidableEq α] (a b : List α) : List (Nat × Nat × Nat) :=
  matchingBlocksGo a.length a b

/-- Modelled from the spec: collapse adjacent matching blocks into one
(the accumulator plays the role of the current pending block, starting from
the zero block). -/
def mergeAdjacentGo : Nat × Nat × Nat → List (Nat × Nat × Nat) → List (Nat × Nat × Nat)
  | acc, [] => if acc.2.2 ≠ 0 then [acc] else []
  | acc, t :: rest =>
    if acc.1 + acc.2.2 = t.1 ∧ acc.2.1 + acc.2.2 = t.2.1 then
      mergeAdjacentGo (acc.1, acc.2.1, acc.2.2 + t.2.2) rest
    else if acc.2.2 ≠ 0 then
      acc :: mergeAdjacentGo t rest
    else
      mergeAdjacentGo t rest

/-- Modelled from the spec: merged matching blocks followed by the terminal
zero-length block `(len a, len b, 0)`. -/
def fullBlocks {α : Type} [DecidableEq α] (a b : List α) : List (Nat × Nat × Nat) :=
  mergeAdjacentGo (0, 0, 0) (matchingBlocks a b) ++ [(a.length, b.length, 0)]

/-- Total number of matched elements between two sequences. -/
def totalMatched {α : Type} [DecidableEq α] (a b : List α) : Nat :=
  ((fullBlocks a b).map fun t => t.2.2).sum

/-- Modelled from the spec: the normalized character-level similarity ratio
`2*M/T` (`1` when both sequences are empty), range `[0, 1]`, `1.0` =
identical. -/
def similarity (a b : List Char) : ℚ :=
  if a.length + b.length = 0 then 1
  else 2 * (totalMatched a b : ℚ) / ((a.length : ℚ) + (b.length : ℚ))

/-- The four edit-operation tags of a diff opcode. -/
inductive DiffTag where
  | equal
  | replace
  | delete
  | insert
deriving DecidableEq, Repr

/-- One diff opcode: apply `tag` to `a[i1:i2]` and `b[j1:j2]`. -/
structure Opcode where
  tag : DiffTag
  i1 : Nat
  i2 : Nat
  j1 : Nat
  j2 : Nat
deriving DecidableEq, Repr

/-- Modelled from the spec: turn matching blocks into opcodes, tagging the gap
before each block and the block itself. -/
def opcodesGo : Nat → Nat → List (Nat × Nat × Nat) → List Opcode
  | _, _, [] => []
  | i, j, t :: rest =>
    (if i < t.1 ∧ j < t.2.1 then [⟨DiffTag.replace, i, t.1, j, t.2.1⟩]
     else if i < t.1 then [⟨DiffTag.delete, i, t.1, j, t.2.1⟩]
     else if j < t.2.1 then [⟨DiffTag.insert, i, t.1, j, t.2.1⟩]
     else []) ++
    (if t.2.2 ≠ 0 then [⟨DiffTag.equal, t.1, t.1 + t.2.2, t.2.1, t.2.1 + t.2.2⟩] else []) ++
    opcodesGo (t.1 + t.2.2) (t.2.1 + t.2.2) rest

/-- Modelled from the spec: the opcodes of a pairwise diff. -/
def getOpcodes {α : Type} [DecidableEq α] (a b : List α) : List Opcode :=
  opcodesGo 0 0 (fullBlocks a b)

/-- Shrink a leading `equal` opcode to at most `n` trailing context lines. -/
def fudgeHead (n : Nat) : List Opcode → List Opcode
  | [] => []
  | c :: rest =>
    if c.tag = DiffTag.equal then
      ⟨c.tag, max c.i1 (c.i2 - n), c.i2, max c.j1 (c.j2 - n), c.j2⟩ :: rest
    else
      c :: rest

/-- Shrink a trailing `equal` opcode to at most `n` leading context lines. -/
def fudgeLast (n : Nat) : List Opcode → List Opcode
  | [] => []
  | [c] =>
    if c.tag = DiffTag.equal then
      [⟨c.tag, c.i1, min c.i2 (c.i1 + n), c.j1, min c.j2 (c.j1 + n)⟩]
    else
      [c]
  | c :: rest => c :: fudgeLast n rest

/-- Modelled from the spec: gather opcodes into hunks with `n` lines of
context, splitting at `equal` spans longer than `2 * n` and dropping a final
group that is a single `equal` opcode. -/
def groupGo (n : Nat) : List Opcode → List Opcode → List (List Opcode)
  | group, [] =>
    match group with
    | [] => []
    | [c] => if c.tag = DiffTag.equal then [] else [[c]]
    | g => [g]
  | group, c :: rest =>
    if c.tag = DiffTag.equal ∧ 2 * n < c.i2 - c.i1 then
      (group ++ [⟨c.tag, c.i1, min c.i2 (c.i1 + n), c.j1, min c.j2 (c.j1 + n)⟩]) ::
        groupGo n [⟨c.tag, max c.i1 (c.i2 - n), c.i2, max c.j1 (c.j2 - n), c.j2⟩] rest
    else
      groupGo n (group ++ [c]) rest

/-- Modelled from the spec: the opcode groups (hunks) of a unified diff with
`n` context lines; empty when the sequences do not differ. -/
def groupedOpcodes {α : Type} [DecidableEq α] (n : Nat) (a b : List α) : List (List Opcode) :=
  groupGo n []
    (fudgeLast n (fudgeHead n
      (if getOpcodes a b = [] then [⟨DiffTag.equal, 0, 1, 0, 1⟩] else getOpcodes a b)))

/-- Number of body records a single opcode contributes to a unified diff. -/
def opcodeRecords (c : Opcode) : Nat :=
  match c.tag with
  | DiffTag.equal => c.i2 - c.i1
  | DiffTag.replace => (c.i2 - c.i1) + (c.j2 - c.j1)
  | DiffTag.delete => c.i2 - c.i1
  | DiffTag.insert => c.j2 - c.j1

/-- Modelled from the spec: the number of records produced by a unified
line-diff — two file headers plus, per hunk, one hunk header and its body
records; `0` when the sequences do not differ. -/
def unifiedDiffCount (a b : List String) : Nat :=
  if groupedOpcodes 3 a b = [] then 0
  else 2 + ((groupedOpcodes 3 a b).map fun g => 1 + (g.map opcodeRecords).sum).sum

end Difflib

namespace UQLMGuard

open PyStr Difflib

/-- One entry of the divergence list of `UQLMAnalyzer._find_divergence`. -/
structure DivergencePair where
  response_pair : Nat × Nat
  diff_lines : Nat
  similarity : ℚ
deriving DecidableEq, Repr

/-- Model of `UQLMAnalyzer._find_divergence` (`uqlm_guard/core/analyzer.py` lines
158-181): for every index pair `i < j`, count the unified line-diff records of
the two responses and emit a pair exactly when more than 5, carrying the
character-level similarity ratio. -/
def find_divergence (responses : List String) : List DivergencePair :=
  (List.range responses.length).flatMap fun i =>
    ((List.range responses.length).filter fun j => i < j).filterMap fun j =>
      if 5 < unifiedDiffCount (pySplitNl (responses.getD i "")) (pySplitNl (responses.getD j "")) then
        some { response_pair := (i, j),
               diff_lines := unifiedDiffCount (pySplitNl (responses.getD i ""))
                 (pySplitNl (responses.getD j "")),
               similarity := Difflib.similarity (responses.getD i "").data (responses.getD j "").data }
      else none

end UQLMGuard

namespace Gate

open PyStr

/-- Model of Python `"%.2f"` fixed-point formatting on the `ℚ` model of
floats: round to the nearest hundredth (tie behaviour of binary floats is an
artifact outside the `ℚ` model) and print with two decimal digits. -/
def formatFixed2 (q : ℚ) : String :=
  if q < 0 then "-" ++ formatNonneg (-q) else formatNonneg q
where
  /-- format a non-negative rational with two decimal digits -/
  formatNonneg (q : ℚ) : String :=
    toString ((round (q * 100)).toNat / 100) ++ "." ++
      (if (round (q * 100)).toNat % 100 < 10 then "0" else "") ++
      toString ((round (q * 100)).toNat % 100)

/-- Model of `enforce_confidence_threshold` (`gate/policy.py` lines 6-31); the reason
string is built from the source's two adjacent f-string literals. -/
def enforce_confidence_threshold (score threshold : ℚ) : Bool × Option String :=
  if score < threshold then
    (false, some ("Output confidence " ++ formatFixed2 score ++ " is below " ++
      "required threshold " ++ formatFixed2 threshold))
  else
    (true, none)

/-- Modelled from the spec: the external generation/scoring collaborator
(`uq.generate_and_score` of the `uqlm` library) as an injected opaque
function from (prompt, sample count, call index) to a confidence score or an
error message.  `evaluate_prompt` (`gate/evaluator.py` lines 24-59) makes one
call and wraps any error as `"UQLM evaluation failed: ..."`; the second
component of the result counts the external calls made. -/
def evaluate_prompt (collab : String → Int → Nat → Except String ℚ)
    (prompt : String) (num_samples : Int) : Except String ℚ × Nat :=
  match collab prompt num_samples 0 with
  | Except.ok confidence => (Except.ok confidence, 1)
  | Except.error e => (Except.error ("UQLM evaluation failed: " ++ e), 1)

/-- Model of `EvaluationRequest` (`gate/models.py` lines 7-34): prompt with
`min_length=1` plus a non-whitespace validator, `min_confidence ∈ [0, 1]`
(default 0.6), `num_samples ∈ [2, 10]` (default 5). -/
structure EvaluationRequest where
  prompt : String
  min_confidence : ℚ := 0.6
  num_samples : Int := 5
deriving DecidableEq, Repr

/-- Pydantic validation of `EvaluationRequest`, applied by FastAPI before the
endpoint body runs (a failure is the synchronous 422 validation error). -/
def validateRequest (req : EvaluationRequest) : Except String EvaluationRequest :=
  if req.prompt.data.length < 1 then
    Except.error "prompt: string should have at least 1 character"
  else if (pyStrip req.prompt).data = [] then
    Except.error "prompt: prompt cannot be empty or whitespace only"
  else if req.min_confidence < 0 ∨ 1 < req.min_confidence then
    Except.error "min confidence: input should be between 0 and 1"
  else if req.num_samples < 2 ∨ 10 < req.num_samples then
    Except.error "num samples: input should be between 2 and 10"
  else
    Except.ok req

/-- Model of `EvaluationResponse` (`gate/models.py` lines 37-52). -/
structure EvaluationResponse where
  confidence_score : ℚ
  passed : Bool
  reason : Option String := none
deriving DecidableEq, Repr

/-- The `/evaluate` endpoint (`gate/main.py` lines 46-83): FastAPI validates
the request first; only a valid request reaches the handler body, which makes
the single external evaluation call and applies the threshold policy; handler
errors surface wrapped as `"Evaluation failed: ..."` (HTTP 500).  The second
component counts external collaborator calls. -/
def evaluate_endpoint (collab : String → Int → Nat → Except String ℚ)
    (req : EvaluationRequest) : Except String EvaluationResponse × Nat :=
  match validateRequest req with
  | Except.error e => (Except.error e, 0)
  | Except.ok r =>
    match evaluate_prompt collab r.prompt r.num_samples with
    | (Except.error e, calls) => (Except.error ("Evaluation failed: " ++ e), calls)
    | (Except.ok confidence, calls) =>
      (Except.ok { confidence_score := confidence,
                   passed := (enforce_confidence_threshold confidence r.min_confidence).1,
                   reason := (enforce_confidence_threshold confidence r.min_confidence).2 },
       calls)

end Gate

namespace PyStr

theorem splitOnChar_ne_nil (c : Char) (l : List Char) : splitOnChar c l ≠ [] := by
  induction l with
  | nil => simp [splitOnChar]
  | cons x xs ih =>
    simp only [splitOnChar]
    split
    · simp
    · cases h : splitOnChar c xs with
      | nil => simp
      | cons t ts => simp

theorem pySplitNl_ne_nil (s : String) : pySplitNl s ≠ [] := by
  have h := splitOnChar_ne_nil '\n' s.data
  simp only [pySplitNl, ne_eq, List.map_eq_nil_iff]
  exact h

end PyStr

namespace UQLMGuard

open PyStr Difflib

/-- C1: the Recommendation Generator is a pure function with four bands using
inclusive lower bounds: `c ≥ 0.8` always yields the HIGH-confidence message;
`0.6 ≤ c < 0.8` yields the "review flagged issues" MEDIUM message exactly when
some inconsistency has severity `"high"` (any other severity, including
`"critical"`, never triggers it) and the generic MEDIUM message otherwise;
`0.4 ≤ c < 0.6` yields the LOW message; `c < 0.4` yields the VERY LOW
message. -/
theorem generate_recommendation_bands (c : ℚ) (I : List Inconsistency) :
    (0.8 ≤ c → generate_recommendation c I = "HIGH CONFIDENCE - Output appears reliable") ∧
    (0.6 ≤ c → c < 0.8 →
      ((∃ inc ∈ I, inc.severity = "high") →
        generate_recommendation c I = "MEDIUM CONFIDENCE - Review flagged issues before use") ∧
      ((∀ inc ∈ I, inc.severity ≠ "high") →
        generate_recommendation c I = "MEDIUM CONFIDENCE - Acceptable with review")) ∧
    (0.4 ≤ c → c < 0.6 →
      generate_recommendation c I = "LOW CONFIDENCE - Manual review required, significant uncertainty") ∧
    (c < 0.4 →
      generate_recommendation c I = "VERY LOW CONFIDENCE - Do not use, highly unreliable output") := by
  have hcount : 0 < I.countP (fun inc => inc.severity == "high") ↔ ∃ inc ∈ I, inc.severity = "high" := by
    rw [List.countP_pos_iff]
    simp
  refine ⟨?_, ?_, ?_, ?_⟩
  · intro h
    simp only [generate_recommendation, ge_iff_le, if_pos h]
  · intro h1 h2
    constructor
    · intro hex
      simp only [generate_recommendation, ge_iff_le, if_neg (not_le.mpr h2), if_pos h1]
      rw [if_pos (hcount.mpr hex)]
    · intro hall
      have : ¬ ∃ inc ∈ I, inc.severity = "high" := by
        rintro ⟨inc, hmem, hsev⟩
        exact hall inc hmem hsev
      simp only [generate_recommendation, ge_iff_le, if_neg (not_le.mpr h2), if_pos h1]
      rw [if_neg (fun hpos => this (hcount.mp hpos))]
  · intro h1 h2
    have h08 : ¬ (0.8 : ℚ) ≤ c := by
      intro hc
      linarith
    simp only [generate_recommendation, ge_iff_le, if_neg h08, if_neg (not_le.mpr h2), if_pos h1]
  · intro h
    have h08 : ¬ (0.8 : ℚ) ≤ c := by
      intro hc
      linarith
    have h06 : ¬ (0.6 : ℚ) ≤ c := by
      intro hc
      linarith
    simp only [generate_recommendation, ge_iff_le, if_neg h08, if_neg h06,
      if_neg (not_le.mpr h)]

/-- Witness for C1 at the spec's own examples: confidence 0.85 with no
inconsistencies, 0.65 with one `high`-severity inconsistency, and 0.35. -/
theorem generate_recommendation_bands_witness :
    generate_recommendation 0.85 [] = "HIGH CONFIDENCE - Output appears reliable" ∧
    generate_recommendation 0.65
        [{ type := "structural", severity := "high", description := "d" }] =
      "MEDIUM CONFIDENCE - Review flagged issues before use" ∧
    generate_recommendation 0.35 [] = "VERY LOW CONFIDENCE - Do not use, highly unreliable output" :=
  ⟨(generate_recommendation_bands 0.85 []).1 (by norm_num),
   ((generate_recommendation_bands 0.65 _).2.1 (by norm_num) (by norm_num)).1
     ⟨_, List.mem_singleton.mpr rfl, rfl⟩,
   (generate_recommendation_bands 0.35 []).2.2.2 (by norm_num)⟩

theorem structuralEntries_mem {responses : List String} {inc : Inconsistency}
    (h : inc ∈ structuralEntries responses) :
    inc.type = "structural" ∧ inc.severity = "high" ∧ inc.keyword = none := by
  unfold structuralEntries at h
  split at h
  · rw [List.mem_singleton] at h
    subst h
    exact ⟨rfl, rfl, rfl⟩
  · simp at h

theorem conceptualEntry_eq_some {responses : List String} {kw : String} {inc : Inconsistency}
    (h : conceptualEntry responses kw = some inc) :
    inc.type = "conceptual" ∧ inc.severity = "medium" ∧ inc.keyword = some kw ∧
      inc.frequency = some ((keywordCount responses kw : ℚ) / (responses.length : ℚ)) ∧
      0 < keywordCount responses kw ∧ keywordCount responses kw < responses.length := by
  unfold conceptualEntry at h
  split at h
  · injection h with h
    subst h
    refine ⟨rfl, rfl, rfl, rfl, ?_⟩
    assumption
  · exact absurd h (by simp)

theorem conceptualPart_mem {responses : List String} {inc : Inconsistency}
    (h : inc ∈ (allKeywords responses).filterMap (conceptualEntry responses)) :
    inc.type = "conceptual" := by
  rw [List.mem_filterMap] at h
  obtain ⟨kw, _, hk⟩ := h
  exact (conceptualEntry_eq_some hk).1

/-- C2: for every non-empty response list the structural check emits a
`structural/high` inconsistency iff the population variance of the character
lengths exceeds `0.5` times their mean; when it triggers it emits exactly one
such entry, whose description reports the min and max length and whose details
carry the raw length list and the variance.  In particular
`["short", "x"*1000]` yields a structural/high entry and
`["abc"*10, "def"*11, "ghi"*10]` yields none. -/
theorem inconsistencies_structural_spec (responses : List String) (h : responses ≠ []) :
    ((find_inconsistencies responses).filter (fun inc => inc.type == "structural") =
      if avgLength responses * 0.5 < lengthVariance responses then
        [{ type := "structural", severity := "high",
           description := "Response lengths vary significantly (" ++
             toString (minNat (responseLengths responses)) ++ " to " ++
             toString (maxNat (responseLengths responses)) ++ " chars)",
           lengths := some (responseLengths responses),
           variance := some (lengthVariance responses) }]
      else []) ∧
    (∃ inc ∈ find_inconsistencies ["short", String.mk (List.replicate 1000 'x')],
       inc.type = "structural" ∧ inc.severity = "high") ∧
    (∀ inc ∈ find_inconsistencies
        ["abcabcabcabcabcabcabcabcabcabc",
         "defdefdefdefdefdefdefdefdefdefdef",
         "ghighighighighighighighighighi"],
       inc.type ≠ "structural") := by
  refine ⟨?_, by with_unfolding_all decide, by with_unfolding_all decide⟩
  rw [find_inconsistencies, List.filter_append]
  have h1 : (structuralEntries responses).filter (fun inc => inc.type == "structural") =
      structuralEntries responses := by
    apply List.filter_eq_self.mpr
    intro a ha
    simp [(structuralEntries_mem ha).1]
  have h2 : ((allKeywords responses).filterMap (conceptualEntry responses)).filter
      (fun inc => inc.type == "structural") = [] := by
    apply List.filter_eq_nil_iff.mpr
    intro a ha
    simp [conceptualPart_mem ha]
  rw [h1, h2, List.append_nil]
  rfl

/-- Helper for C3: filtering the conceptual entries for one keyword through a
duplicate-free keyword enumeration isolates at most the entry of that
keyword. -/
theorem filter_keyword_filterMap (responses : List String) (w : String) :
    ∀ l : List String, l.Nodup →
      (l.filterMap (conceptualEntry responses)).filter (fun inc => inc.keyword == some w) =
        if w ∈ l then (conceptualEntry responses w).toList else [] := by
  intro l
  induction l with
  | nil => simp
  | cons x xs ih =>
    intro hnd
    rw [List.nodup_cons] at hnd
    obtain ⟨hx, hxs⟩ := hnd
    rw [List.filterMap_cons]
    cases hcx : conceptualEntry responses x with
    | none =>
      rw [ih hxs]
      by_cases hwx : w = x
      · subst hwx
        rw [if_neg hx, if_pos (List.mem_cons_self _ _), hcx]
        rfl
      · simp [List.mem_cons, hwx]
    | some e =>
      have he := conceptualEntry_eq_some hcx
      rw [List.filter_cons, ih hxs]
      by_cases hwx : w = x
      · subst hwx
        have hkey : (e.keyword == some w) = true := by
          rw [he.2.2.1]
          exact beq_self_eq_true _
        rw [hkey, if_pos rfl, if_neg hx, if_pos (List.mem_cons_self _ _), hcx]
        rfl
      · have hkey : (e.keyword == some w) = false := by
          rw [he.2.2.1, beq_eq_false_iff_ne]
          intro hh
          injection hh with hh
          exact hwx hh.symm
        rw [hkey]
        simp only [Bool.false_eq_true, if_false, List.mem_cons]
        by_cases hwxs : w ∈ xs
        · rw [if_pos hwxs, if_pos (Or.inr hwxs)]
        · rw [if_neg hwxs, if_neg (by rintro (hh | hh) <;> [exact hwx hh; exact hwxs hh])]

/-- C3: for every non-empty response list and every word, the detector emits
exactly one `conceptual/medium` inconsistency naming that word, with presence
frequency `count/N`, iff the word (a lower-cased whitespace token longer than
5 characters, see `pyKeywords`) occurs in at least one but strictly fewer than
all `N` per-response keyword sets. -/
theorem inconsistencies_conceptual_spec (responses : List String) (h : responses ≠ [])
    (w : String) :
    (find_inconsistencies responses).filter (fun inc => inc.keyword == some w) =
      if 0 < keywordCount responses w ∧ keywordCount responses w < responses.length then
        [{ type := "conceptual", severity := "medium",
           description := "Keyword \x27" ++ w ++ "\x27 appears in " ++
             toString (keywordCount responses w) ++ "/" ++
             toString responses.length ++ " responses",
           keyword := some w,
           frequency := some ((keywordCount responses w : ℚ) / (responses.length : ℚ)) }]
      else [] := by
  rw [find_inconsistencies, List.filter_append]
  have h1 : (structuralEntries responses).filter (fun inc => inc.keyword == some w) = [] := by
    apply List.filter_eq_nil_iff.mpr
    intro a ha
    simp [(structuralEntries_mem ha).2.2]
  rw [h1, List.nil_append,
    filter_keyword_filterMap responses w (allKeywords responses)
      (by rw [allKeywords]; exact List.nodup_dedup _)]
  have hmem : w ∈ allKeywords responses ↔ 0 < keywordCount responses w := by
    rw [allKeywords, List.mem_dedup, List.mem_flatten, keywordCount, List.countP_pos_iff]
    constructor
    · rintro ⟨kws, hkws, hw⟩
      exact ⟨kws, hkws, by simpa using hw⟩
    · rintro ⟨kws, hkws, hw⟩
      exact ⟨kws, hkws, by simpa using hw⟩
  by_cases hc : 0 < keywordCount responses w ∧ keywordCount responses w < responses.length
  · rw [if_pos hc, if_pos (hmem.mpr hc.1)]
    simp only [conceptualEntry, if_pos hc]
    rfl
  · rw [if_neg hc]
    by_cases h0 : 0 < keywordCount responses w
    · rw [if_pos (hmem.mpr h0)]
      simp only [conceptualEntry, if_neg hc]
      rfl
    · rw [if_neg (fun hm => h0 (hmem.mp hm))]

/-- Witness for C3 at the spec example: `"secure"` appears in one of three
responses, so exactly one conceptual entry names it. -/
theorem inconsistencies_conceptual_spec_witness :
    (find_inconsistencies
        ["auth using JWT tokens with secure storage",
         "auth using session cookies",
         "auth using JWT tokens"]).filter (fun inc => inc.keyword == some "secure") ≠ [] := by
  rw [inconsistencies_conceptual_spec
    ["auth using JWT tokens with secure storage",
     "auth using session cookies",
     "auth using JWT tokens"] (by decide) "secure"]
  with_unfolding_all decide

/-- Witness for C2 at the spec example `["short", "x"*1000]`. -/
theorem inconsistencies_structural_spec_witness :
    ∃ inc ∈ find_inconsistencies ["short", String.mk (List.replicate 1000 'x')],
      inc.type = "structural" ∧ inc.severity = "high" :=
  (inconsistencies_structural_spec ["short", String.mk (List.replicate 1000 'x')]
    (by with_unfolding_all decide)).2.1

theorem structuralEntries_cases (responses : List String) :
    structuralEntries responses = [] ∨ ∃ e, structuralEntries responses = [e] := by
  unfold structuralEntries
  split
  · exact Or.inr ⟨_, rfl⟩
  · exact Or.inl rfl

/-- C10: for every non-empty response list, the inconsistency list contains at
most one structural entry; when present it is the first element and has
severity `high`; every other entry is `conceptual/medium` with a frequency
strictly between 0 and 1. -/
theorem inconsistencies_shape_spec (responses : List String) (h : responses ≠ []) :
    (find_inconsistencies responses).countP (fun inc => inc.type == "structural") ≤ 1 ∧
    (∀ inc ∈ find_inconsistencies responses, inc.type = "structural" →
      (find_inconsistencies responses).head? = some inc ∧ inc.severity = "high") ∧
    (∀ inc ∈ find_inconsistencies responses, inc.type ≠ "structural" →
      inc.type = "conceptual" ∧ inc.severity = "medium" ∧
      ∃ q : ℚ, inc.frequency = some q ∧ 0 < q ∧ q < 1) := by
  have hconc : ∀ inc ∈ (allKeywords responses).filterMap (conceptualEntry responses),
      inc.type = "conceptual" := fun inc hm => conceptualPart_mem hm
  refine ⟨?_, ?_, ?_⟩
  · rw [find_inconsistencies, List.countP_append]
    have hc0 : ((allKeywords responses).filterMap (conceptualEntry responses)).countP
        (fun inc => inc.type == "structural") = 0 := by
      rw [List.countP_eq_zero]
      intro inc hm
      simp [hconc inc hm]
    rw [hc0, Nat.add_zero]
    rcases structuralEntries_cases responses with hse | ⟨e, hse⟩ <;> rw [hse]
    · simp
    · exact le_trans (List.countP_le_length _) (by simp)
  · intro inc hm ht
    rcases List.mem_append.mp hm with hms | hmc
    · rcases structuralEntries_cases responses with hse | ⟨e, hse⟩
      · rw [hse] at hms
        exact absurd hms (List.not_mem_nil _)
      · rw [hse, List.mem_singleton] at hms
        subst hms
        have hsev := (structuralEntries_mem (by rw [hse]; exact List.mem_singleton.mpr rfl)).2.1
        refine ⟨?_, hsev⟩
        rw [find_inconsistencies, hse]
        rfl
    · exact absurd (hconc inc hmc) (by rw [ht]; decide)
  · intro inc hm ht
    rcases List.mem_append.mp hm with hms | hmc
    · exact absurd (structuralEntries_mem hms).1 ht
    · rw [List.mem_filterMap] at hmc
      obtain ⟨kw, _, hk⟩ := hmc
      obtain ⟨h1, h2, _, h4, h5, h6⟩ := conceptualEntry_eq_some hk
      have hN : 0 < responses.length := lt_trans h5 h6
      refine ⟨h1, h2, (keywordCount responses kw : ℚ) / (responses.length : ℚ), h4, ?_, ?_⟩
      · exact div_pos (by exact_mod_cast h5) (by exact_mod_cast hN)
      · rw [div_lt_one (by exact_mod_cast hN)]
        exact_mod_cast h6

/-- Witness for C10 on a concrete two-response sample whose keywords are each
partially present. -/
theorem inconsistencies_shape_spec_witness :
    (find_inconsistencies ["worldly stuff", "nothing"]).countP
      (fun inc => inc.type == "structural") ≤ 1 :=
  (inconsistencies_shape_spec ["worldly stuff", "nothing"] (by decide)).1

end UQLMGuard

namespace Difflib

theorem matchLen_le_left {α : Type} [DecidableEq α] :
    ∀ xs ys : List α, matchLen xs ys ≤ xs.length := by
  intro xs
  induction xs with
  | nil => intro ys; cases ys <;> simp [matchLen]
  | cons x xs ih =>
    intro ys
    cases ys with
    | nil => simp [matchLen]
    | cons y ys =>
      rw [matchLen]
      split
      · simpa using ih ys
      · simp

theorem matchLen_le_right {α : Type} [DecidableEq α] :
    ∀ xs ys : List α, matchLen xs ys ≤ ys.length := by
  intro xs
  induction xs with
  | nil => intro ys; cases ys <;> simp [matchLen]
  | cons x xs ih =>
    intro ys
    cases ys with
    | nil => simp [matchLen]
    | cons y ys =>
      rw [matchLen]
      split
      · simpa using ih ys
      · simp

theorem matchLen_self {α : Type} [DecidableEq α] (a : List α) : matchLen a a = a.length := by
  induction a with
  | nil => simp [matchLen]
  | cons x xs ih => simp [matchLen, ih]

theorem candidates_bound {α : Type} [DecidableEq α] {a b : List α} {c : Nat × Nat × Nat}
    (hc : c ∈ candidates a b) :
    c.1 + c.2.2 ≤ a.length ∧ c.2.1 + c.2.2 ≤ b.length := by
  rw [candidates, List.mem_flatMap] at hc
  obtain ⟨i, hi, hc⟩ := hc
  rw [List.mem_map] at hc
  obtain ⟨j, hj, rfl⟩ := hc
  rw [List.mem_range] at hi hj
  have h1 := matchLen_le_left (a.drop i) (b.drop j)
  have h2 := matchLen_le_right (a.drop i) (b.drop j)
  rw [List.length_drop] at h1 h2
  constructor
  · simp only []
    omega
  · simp only []
    omega

theorem foldl_pickLonger_mem_or_init :
    ∀ (l : List (Nat × Nat × Nat)) (init : Nat × Nat × Nat),
      l.foldl pickLonger init = init ∨ l.foldl pickLonger init ∈ l := by
  intro l
  induction l with
  | nil => intro init; exact Or.inl rfl
  | cons c ts ih =>
    intro init
    rw [List.foldl_cons]
    rcases ih (pickLonger init c) with h | h
    · rw [h, pickLonger]
      split
      · exact Or.inr (List.mem_cons_self _ _)
      · exact Or.inl rfl
    · exact Or.inr (List.mem_cons_of_mem _ h)

theorem foldl_pickLonger_k_le :
    ∀ (l : List (Nat × Nat × Nat)) (init : Nat × Nat × Nat),
      init.2.2 ≤ (l.foldl pickLonger init).2.2 := by
  intro l
  induction l with
  | nil => intro init; exact le_refl _
  | cons c ts ih =>
    intro init
    rw [List.foldl_cons]
    refine le_trans ?_ (ih (pickLonger init c))
    rw [pickLonger]
    split
    · exact le_of_lt (by assumption)
    · exact le_refl _

theorem foldl_pickLonger_k_ge_mem :
    ∀ (l : List (Nat × Nat × Nat)) (init c : Nat × Nat × Nat), c ∈ l →
      c.2.2 ≤ (l.foldl pickLonger init).2.2 := by
  intro l
  induction l with
  | nil => intro init c hc; exact absurd hc (List.not_mem_nil _)
  | cons t ts ih =>
    intro init c hc
    rw [List.foldl_cons]
    rcases List.mem_cons.mp hc with rfl | hc
    · refine le_trans ?_ (foldl_pickLonger_k_le ts (pickLonger init c))
      rw [pickLonger]
      split
      · exact le_refl _
      · exact le_of_not_lt (by assumption)
    · exact ih (pickLonger init t) c hc

theorem longestMatch_bounds {α : Type} [DecidableEq α] (a b : List α) :
    (longestMatch a b).1 + (longestMatch a b).2.2 ≤ a.length ∧
      (longestMatch a b).2.1 + (longestMatch a b).2.2 ≤ b.length := by
  rcases foldl_pickLonger_mem_or_init (candidates a b) (0, 0, 0) with h | h
  · rw [longestMatch, h]
    exact ⟨Nat.zero_le _, Nat.zero_le _⟩
  · exact candidates_bound h

theorem longestMatch_self {α : Type} [DecidableEq α] (a : List α) :
    longestMatch a a = (0, 0, a.length) := by
  cases a with
  | nil => rfl
  | cons x xs =>
    have hmem : ((0 : Nat), (0 : Nat), matchLen (x :: xs) (x :: xs)) ∈ candidates (x :: xs) (x :: xs) := by
      rw [candidates, List.mem_flatMap]
      refine ⟨0, List.mem_range.mpr (by simp), ?_⟩
      rw [List.mem_map]
      exact ⟨0, List.mem_range.mpr (by simp), by rw [List.drop_zero]⟩
    have hge : (x :: xs).length ≤ (longestMatch (x :: xs) (x :: xs)).2.2 := by
      have h := foldl_pickLonger_k_ge_mem (candidates (x :: xs) (x :: xs)) (0, 0, 0) _ hmem
      simp only [matchLen_self] at h
      exact h
    have hb := longestMatch_bounds (x :: xs) (x :: xs)
    have h3 : (longestMatch (x :: xs) (x :: xs)).2.2 = (x :: xs).length := by omega
    have h1 : (longestMatch (x :: xs) (x :: xs)).1 = 0 := by omega
    have h2 : (longestMatch (x :: xs) (x :: xs)).2.1 = 0 := by omega
    rw [Prod.ext_iff, Prod.ext_iff]
    exact ⟨h1, h2, h3⟩

theorem matchingBlocksGo_nil {α : Type} [DecidableEq α] (fuel : Nat) :
    matchingBlocksGo fuel ([] : List α) [] = [] := by
  cases fuel with
  | zero => rfl
  | succ fuel =>
    rw [matchingBlocksGo]
    rw [if_pos]
    rw [longestMatch_self]
    rfl

theorem matchingBlocks_self {α : Type} [DecidableEq α] (a : List α) :
    matchingBlocks a a = if a.length = 0 then [] else [(0, 0, a.length)] := by
  rw [matchingBlocks]
  cases a with
  | nil => simp [matchingBlocksGo_nil]
  | cons x xs =>
    rw [List.length_cons, matchingBlocksGo, longestMatch_self]
    simp only [List.length_cons]
    rw [if_neg (by simp)]
    rw [if_neg (by simp)]
    simp only [List.take_zero, matchingBlocksGo_nil, List.nil_append, Nat.zero_add]
    rw [show xs.length + 1 = (x :: xs).length from rfl, List.drop_length,
      matchingBlocksGo_nil]
    simp [shiftBlocks]

theorem shiftBlocks_sizes (di dj : Nat) (l : List (Nat × Nat × Nat)) :
    ((shiftBlocks di dj l).map fun t => t.2.2) = l.map fun t => t.2.2 := by
  simp [shiftBlocks, Function.comp]

theorem totalGo_le {α : Type} [DecidableEq α] :
    ∀ (fuel : Nat) (a b : List α), a.length ≤ fuel →
      ((matchingBlocksGo fuel a b).map fun t => t.2.2).sum ≤ a.length ∧
      ((matchingBlocksGo fuel a b).map fun t => t.2.2).sum ≤ b.length := by
  intro fuel
  induction fuel with
  | zero =>
    intro a b hf
    simp [matchingBlocksGo]
  | succ fuel ih =>
    intro a b hf
    rw [matchingBlocksGo]
    by_cases hm : (longestMatch a b).2.2 = 0
    · rw [if_pos hm]
      simp
    · rw [if_neg hm]
      obtain ⟨hb1, hb2⟩ := longestMatch_bounds a b
      have hk : 1 ≤ (longestMatch a b).2.2 := Nat.one_le_iff_ne_zero.mpr hm
      have ht1 : (a.take (longestMatch a b).1).length ≤ fuel := by
        rw [List.length_take]
        omega
      have ht2 : (a.drop ((longestMatch a b).1 + (longestMatch a b).2.2)).length ≤ fuel := by
        rw [List.length_drop]
        omega
      obtain ⟨l1a, l1b⟩ := ih (a.take (longestMatch a b).1) (b.take (longestMatch a b).2.1) ht1
      obtain ⟨l2a, l2b⟩ := ih (a.drop ((longestMatch a b).1 + (longestMatch a b).2.2))
        (b.drop ((longestMatch a b).2.1 + (longestMatch a b).2.2)) ht2
      rw [List.length_take] at l1a l1b
      rw [List.length_drop] at l2a l2b
      rw [List.map_append, List.sum_append, List.map_cons, List.sum_cons, shiftBlocks_sizes]
      constructor <;> omega

theorem mergeAdjacentGo_sizes_sum :
    ∀ (l : List (Nat × Nat × Nat)) (acc : Nat × Nat × Nat),
      ((mergeAdjacentGo acc l).map fun t => t.2.2).sum = acc.2.2 + (l.map fun t => t.2.2).sum := by
  intro l
  induction l with
  | nil =>
    intro acc
    rw [mergeAdjacentGo]
    split
    · simp
    · next h =>
      simp only [List.map_nil, List.sum_nil, List.map_cons]
      simp at h
      omega
  | cons t rest ih =>
    intro acc
    rw [mergeAdjacentGo]
    split
    · rw [ih]
      simp only [List.map_cons, List.sum_cons]
      omega
    · split
      · rw [List.map_cons, List.sum_cons, ih]
        simp only [List.map_cons, List.sum_cons]
      · next h h2 =>
        rw [ih]
        simp only [List.map_cons, List.sum_cons]
        simp at h2
        omega

theorem totalMatched_le {α : Type} [DecidableEq α] (a b : List α) :
    totalMatched a b ≤ a.length ∧ totalMatched a b ≤ b.length := by
  have h := totalGo_le a.length a b (le_refl _)
  rw [totalMatched, fullBlocks, List.map_append, List.sum_append, mergeAdjacentGo_sizes_sum]
  simp only [List.map_cons, List.map_nil, List.sum_cons, List.sum_nil]
  rw [matchingBlocks]
  constructor <;> omega

theorem similarity_mem_unit (a b : List Char) :
    0 ≤ similarity a b ∧ similarity a b ≤ 1 := by
  rw [similarity]
  split
  · norm_num
  · next h =>
    have hpos : (0 : ℚ) < (a.length : ℚ) + (b.length : ℚ) := by
      have h0 : 0 < a.length + b.length := Nat.pos_of_ne_zero h
      have := (Nat.cast_lt (α := ℚ)).mpr h0
      push_cast at this
      linarith
    obtain ⟨h1, h2⟩ := totalMatched_le a b
    have hc1 : (totalMatched a b : ℚ) ≤ (a.length : ℚ) := by exact_mod_cast h1
    have hc2 : (totalMatched a b : ℚ) ≤ (b.length : ℚ) := by exact_mod_cast h2
    have hm0 : (0 : ℚ) ≤ (totalMatched a b : ℚ) := by positivity
    constructor
    · apply div_nonneg _ (le_of_lt hpos)
      linarith
    · rw [div_le_one hpos]
      linarith

theorem unifiedDiffCount_self (a : List String) : unifiedDiffCount a a = 0 := by
  by_cases h0 : a.length = 0
  · have ha : a = [] := List.length_eq_zero.mp h0
    subst ha
    decide
  · have hblocks : matchingBlocks a a = [(0, 0, a.length)] := by
      rw [matchingBlocks_self, if_neg h0]
    have hmerge : mergeAdjacentGo (0, 0, 0) [((0 : Nat), (0 : Nat), a.length)] =
        [((0 : Nat), (0 : Nat), a.length)] := by
      rw [mergeAdjacentGo, if_pos ⟨rfl, rfl⟩, mergeAdjacentGo, if_pos (by simpa using h0)]
      simp
    have hfull : fullBlocks a a =
        [((0 : Nat), (0 : Nat), a.length), (a.length, a.length, 0)] := by
      rw [fullBlocks, hblocks, hmerge]
      rfl
    have hopc : getOpcodes a a = [⟨DiffTag.equal, 0, a.length, 0, a.length⟩] := by
      rw [getOpcodes, hfull, opcodesGo]
      simp only [Nat.lt_irrefl, and_false, if_false, Nat.zero_add]
      rw [opcodesGo]
      simp [opcodesGo, h0]
    have hfh : fudgeHead 3 [⟨DiffTag.equal, 0, a.length, 0, a.length⟩] =
        [⟨DiffTag.equal, a.length - 3, a.length, a.length - 3, a.length⟩] := by
      rw [fudgeHead, if_pos rfl]
      simp
    have hfl : fudgeLast 3 [⟨DiffTag.equal, a.length - 3, a.length, a.length - 3, a.length⟩] =
        [⟨DiffTag.equal, a.length - 3, a.length, a.length - 3, a.length⟩] := by
      rw [fudgeLast, if_pos rfl]
      have hmin : min a.length (a.length - 3 + 3) = a.length := by omega
      rw [hmin]
    have hgg : groupGo 3 [] [⟨DiffTag.equal, a.length - 3, a.length, a.length - 3, a.length⟩] =
        [] := by
      rw [groupGo, if_neg (by rintro ⟨h1, h2⟩; simp at h2; omega), List.nil_append, groupGo]
      simp
    have hgroups : groupedOpcodes 3 a a = [] := by
      rw [groupedOpcodes, hopc, if_neg (by simp), hfh, hfl, hgg]
    simp [unifiedDiffCount, hgroups]

end Difflib

namespace UQLMGuard

open PyStr Difflib

theorem mem_foldl_inter (line : String) :
    ∀ (rest : List String) (init : List String),
      line ∈ rest.foldl (fun common r => common.filter fun l => decide (l ∈ pySplitNl r)) init ↔
        line ∈ init ∧ ∀ r ∈ rest, line ∈ pySplitNl r := by
  intro rest
  induction rest with
  | nil =>
    intro init
    simp
  | cons r rs ih =>
    intro init
    rw [List.foldl_cons, ih, List.forall_mem_cons, List.mem_filter]
    constructor
    · rintro ⟨⟨h1, h2⟩, h3⟩
      exact ⟨h1, by simpa using h2, h3⟩
    · rintro ⟨h1, h2, h3⟩
      exact ⟨⟨h1, by simpa using h2⟩, h3⟩

theorem nodup_foldl_inter :
    ∀ (rest : List String) (init : List String), init.Nodup →
      (rest.foldl (fun common r => common.filter fun l => decide (l ∈ pySplitNl r)) init).Nodup := by
  intro rest
  induction rest with
  | nil => intro init h; exact h
  | cons r rs ih =>
    intro init h
    exact ih _ (List.Nodup.filter _ h)

/-- C6: the Consensus Extractor returns exactly the set intersection of the
newline-split line sets of all responses, as a duplicate-free sequence (its
order is an artifact of Python set iteration and is left unspecified); the
empty SampleSet yields the empty result and a singleton SampleSet yields that
response's own distinct lines. -/
theorem find_consensus_spec (responses : List String) :
    (find_consensus responses).Nodup ∧
    (∀ line, line ∈ find_consensus responses ↔
      responses ≠ [] ∧ ∀ r ∈ responses, line ∈ pySplitNl r) ∧
    find_consensus ([] : List String) = [] ∧
    (∀ r, find_consensus [r] = (pySplitNl r).dedup) := by
  refine ⟨?_, ?_, rfl, fun r => rfl⟩
  · cases responses with
    | nil => exact List.nodup_nil
    | cons r0 rest => exact nodup_foldl_inter rest _ (List.nodup_dedup _)
  · intro line
    cases responses with
    | nil => simp [find_consensus]
    | cons r0 rest =>
      rw [find_consensus, mem_foldl_inter, List.mem_dedup, List.forall_mem_cons]
      simp only [ne_eq, List.cons_ne_nil, not_false_eq_true, true_and]

/-- Witness for C6: a common line is found on a concrete sample. -/
theorem find_consensus_spec_witness :
    "b" ∈ find_consensus ["a" ++ "\n" ++ "b", "b" ++ "\n" ++ "c"] :=
  ((find_consensus_spec ["a" ++ "\n" ++ "b", "b" ++ "\n" ++ "c"]).2.1 "b").mpr
    (by constructor
        · simp
        · decide)

/-- C5 counterexample: with both responses equal to the empty string, the
Consensus Extractor returns `[""]`, whose only element is the empty string, so
it does not return a non-empty element. -/
theorem consensus_identical_counterexample :
    find_consensus ["", ""] = [""] ∧ ¬ ∃ x ∈ find_consensus ["", ""], x ≠ "" := by
  constructor
  · decide
  · decide

theorem foldl_inter_self (s : String) :
    ∀ (m : Nat) (init : List String), (∀ x ∈ init, x ∈ pySplitNl s) →
      (List.replicate m s).foldl
        (fun common r => common.filter fun l => decide (l ∈ pySplitNl r)) init = init := by
  intro m
  induction m with
  | zero => intro init h; rfl
  | succ m ih =>
    intro init h
    rw [List.replicate_succ, List.foldl_cons,
      List.filter_eq_self.mpr (fun a ha => by simpa using h a ha)]
    exact ih init h

/-- C5 (amended): for every SampleSet of size ≥ 2 whose responses are all the
identical string, the Consensus Extractor returns the non-empty list of that
string's distinct lines (they can all be empty strings, as the counterexample
shows) and the Divergence Detector returns the empty pair list. -/
theorem consensus_identical_amended (n : Nat) (s : String) (h : 2 ≤ n) :
    find_consensus (List.replicate n s) = (pySplitNl s).dedup ∧
    find_consensus (List.replicate n s) ≠ [] ∧
    find_divergence (List.replicate n s) = [] := by
  have hgetD : ∀ i, i < n → (List.replicate n s).getD i "" = s := by
    intro i hi
    rw [List.getD_eq_getElem?_getD, List.getElem?_replicate, if_pos hi]
    rfl
  have hcons : find_consensus (List.replicate n s) = (pySplitNl s).dedup := by
    obtain ⟨m, rfl⟩ : ∃ m, n = m + 1 := ⟨n - 1, by omega⟩
    rw [List.replicate_succ, find_consensus]
    exact foldl_inter_self s m _ (fun x hx => List.mem_dedup.mp hx)
  refine ⟨hcons, ?_, ?_⟩
  · rw [hcons]
    rw [ne_eq, List.dedup_eq_nil]
    exact pySplitNl_ne_nil s
  · rw [find_divergence, List.flatMap_eq_nil_iff]
    intro i hi
    rw [List.mem_range, List.length_replicate] at hi
    rw [List.filterMap_eq_nil_iff]
    intro j hj
    rw [List.mem_filter, List.mem_range, List.length_replicate] at hj
    rw [hgetD i hi, hgetD j hj.1, unifiedDiffCount_self]
    rw [if_neg (by omega)]

/-- Witness for C5's amended theorem at `n = 2`, `s = "a"`. -/
theorem consensus_identical_amended_witness :
    find_consensus (List.replicate 2 "a") = (pySplitNl "a").dedup ∧
    find_consensus (List.replicate 2 "a") ≠ [] ∧
    find_divergence (List.replicate 2 "a") = [] :=
  consensus_identical_amended 2 "a" (by norm_num)

theorem length_flatMap_eq_sum {α β : Type} (l : List α) (f : α → List β) :
    (l.flatMap f).length = (l.map fun a => (f a).length).sum := by
  induction l with
  | nil => rfl
  | cons x xs ih => simp [List.flatMap_cons, ih]

theorem filter_range_length (i : Nat) :
    ∀ n : Nat, ((List.range n).filter fun j => decide (i < j)).length = n - (i + 1) := by
  intro n
  induction n with
  | zero => simp
  | succ n ihn =>
    rw [List.range_succ, List.filter_append, List.length_append, ihn]
    by_cases h : i < n
    · simp [h]
      omega
    · simp [h]
      omega

theorem sum_map_succ (l : List Nat) : (l.map fun x => x + 1).sum = l.sum + l.length := by
  induction l with
  | nil => rfl
  | cons x xs ih =>
    simp only [List.map_cons, List.sum_cons, ih, List.length_cons]
    omega

theorem sum_range_rev (n : Nat) :
    ((List.range n).map fun i => n - (i + 1)).sum = n.choose 2 := by
  induction n with
  | zero => rfl
  | succ n ihn =>
    rw [List.range_succ, List.map_append, List.sum_append]
    simp only [List.map_cons, List.map_nil, List.sum_cons, List.sum_nil]
    have hmap : (List.range n).map (fun i => n + 1 - (i + 1)) =
        ((List.range n).map fun i => n - (i + 1)).map (fun x => x + 1) := by
      rw [List.map_map]
      apply List.map_congr_left
      intro i hi
      rw [List.mem_range] at hi
      simp only [Function.comp]
      omega
    rw [hmap, sum_map_succ, List.length_map, List.length_range, ihn,
      Nat.choose_succ_succ n 1, Nat.choose_one_right]
    have hsucc : Nat.succ 1 = 2 := rfl
    rw [hsucc]
    omega

theorem find_divergence_length_le (responses : List String) :
    (find_divergence responses).length ≤ responses.length.choose 2 := by
  rw [find_divergence, length_flatMap_eq_sum]
  refine le_trans (List.sum_le_sum ?_) (le_of_eq (sum_range_rev responses.length))
  intro i hi
  exact le_trans (List.length_filterMap_le _ _)
    (le_of_eq (filter_range_length i responses.length))

theorem mem_find_divergence {responses : List String} {d : DivergencePair} :
    d ∈ find_divergence responses ↔
      ∃ i j, i < j ∧ j < responses.length ∧
        5 < unifiedDiffCount (pySplitNl (responses.getD i ""))
          (pySplitNl (responses.getD j "")) ∧
        d = { response_pair := (i, j),
              diff_lines := unifiedDiffCount (pySplitNl (responses.getD i ""))
                (pySplitNl (responses.getD j "")),
              similarity := Difflib.similarity (responses.getD i "").data
                (responses.getD j "").data } := by
  rw [find_divergence, List.mem_flatMap]
  constructor
  · rintro ⟨i, hi, hd⟩
    rw [List.mem_filterMap] at hd
    obtain ⟨j, hj, hfj⟩ := hd
    rw [List.mem_filter, List.mem_range] at hj
    split at hfj
    · injection hfj with hfj
      exact ⟨i, j, by simpa using hj.2, hj.1, by assumption, hfj.symm⟩
    · exact absurd hfj (by simp)
  · rintro ⟨i, j, hij, hj, hcond, rfl⟩
    refine ⟨i, List.mem_range.mpr (lt_trans hij hj), ?_⟩
    rw [List.mem_filterMap]
    refine ⟨j, List.mem_filter.mpr ⟨List.mem_range.mpr hj, by simpa using hij⟩, ?_⟩
    rw [if_pos hcond]

theorem nodup_pair_flatMap {β : Type} (n : Nat) (F : Nat → Nat → Option β)
    (key : β → Nat × Nat)
    (hkey : ∀ i j d, F i j = some d → key d = (i, j)) :
    (((List.range n).flatMap fun i =>
        ((List.range n).filter fun j => decide (i < j)).filterMap fun j => F i j).map key).Nodup := by
  rw [List.map_flatMap, List.nodup_flatMap]
  constructor
  · intro i hi
    rw [List.map_filterMap]
    apply List.Nodup.filterMap
    · intro a a' b hb hb'
      cases hfa : F i a with
      | none =>
        rw [hfa] at hb
        exact absurd hb (by simp)
      | some d =>
        cases hfa' : F i a' with
        | none =>
          rw [hfa'] at hb'
          exact absurd hb' (by simp)
        | some d' =>
          rw [hfa] at hb
          rw [hfa'] at hb'
          have hb2 : key d = b := by simpa using hb
          have hb2' : key d' = b := by simpa using hb'
          have h1 := hkey i a d hfa
          have h2 := hkey i a' d' hfa'
          have : ((i, a) : Nat × Nat) = (i, a') := by
            rw [← h1, ← h2, hb2, hb2']
          simpa using this
    · exact List.Nodup.filter _ (List.nodup_range n)
  · refine (List.pairwise_lt_range n).imp ?_
    intro i j hij
    intro p hp hp'
    rw [List.mem_map] at hp hp'
    obtain ⟨d, hd, rfl⟩ := hp
    obtain ⟨d', hd', he⟩ := hp'
    rw [List.mem_filterMap] at hd hd'
    obtain ⟨a, ha, hfa⟩ := hd
    obtain ⟨a', ha', hfa'⟩ := hd'
    have h1 := hkey i a d hfa
    have h2 := hkey j a' d' hfa'
    rw [h1, h2] at he
    have : j = i := by simpa using congrArg Prod.fst he
    omega

theorem find_divergence_pairs_nodup (responses : List String) :
    ((find_divergence responses).map fun d => d.response_pair).Nodup := by
  rw [find_divergence]
  refine nodup_pair_flatMap responses.length _ (fun d : DivergencePair => d.response_pair) ?_
  intro i j d h
  split at h
  · injection h with h
    rw [← h]
  · exact absurd h (by simp)

/-- C4: the Divergence Detector returns at most `C(N, 2)` entries with
pairwise-distinct index pairs `(i, j)`, `0 ≤ i < j < N`; every entry has
similarity in `[0, 1]` and its (necessarily non-negative) diff-line count
equals the unified line-diff record count of the pair; a pair is emitted iff
that count exceeds 5; the output is a pure function of the input list, hence
deterministic for identical input ordering. -/
theorem find_divergence_spec (responses : List String) :
    (find_divergence responses).length ≤ responses.length.choose 2 ∧
    ((find_divergence responses).map fun d => d.response_pair).Nodup ∧
    (∀ d ∈ find_divergence responses,
      d.response_pair.1 < d.response_pair.2 ∧
      d.response_pair.2 < responses.length ∧
      0 ≤ d.similarity ∧ d.similarity ≤ 1 ∧
      5 < d.diff_lines ∧
      d.diff_lines = unifiedDiffCount (pySplitNl (responses.getD d.response_pair.1 ""))
        (pySplitNl (responses.getD d.response_pair.2 ""))) ∧
    (∀ i j : Nat, i < j → j < responses.length →
      ((∃ d ∈ find_divergence responses, d.response_pair = (i, j)) ↔
        5 < unifiedDiffCount (pySplitNl (responses.getD i ""))
          (pySplitNl (responses.getD j "")))) ∧
    (∀ responses' : List String, responses = responses' →
      find_divergence responses = find_divergence responses') := by
  refine ⟨find_divergence_length_le responses, find_divergence_pairs_nodup responses,
    ?_, ?_, fun _ h => by rw [h]⟩
  · intro d hd
    obtain ⟨i, j, hij, hj, hcond, rfl⟩ := mem_find_divergence.mp hd
    obtain ⟨hs0, hs1⟩ := similarity_mem_unit (responses.getD i "").data (responses.getD j "").data
    exact ⟨hij, hj, hs0, hs1, hcond, rfl⟩
  · intro i j hij hj
    constructor
    · rintro ⟨d, hd, hpair⟩
      obtain ⟨i', j', hij', hj', hcond', rfl⟩ := mem_find_divergence.mp hd
      have hi : i' = i := by simpa using congrArg Prod.fst hpair
      have hjj : j' = j := by simpa using congrArg Prod.snd hpair
      rw [hi, hjj] at hcond'
      exact hcond'
    · intro hcond
      exact ⟨_, mem_find_divergence.mpr ⟨i, j, hij, hj, hcond, rfl⟩, rfl⟩

/-- Witness for C4: two four-line responses with no common line produce the
pair `(0, 1)`. -/
theorem find_divergence_spec_witness :
    ∃ d ∈ find_divergence ["a\nb\nc\nd", "w\nx\ny\nz"], d.response_pair = (0, 1) :=
  ((find_divergence_spec ["a\nb\nc\nd", "w\nx\ny\nz"]).2.2.2.1 0 1 (by norm_num)
    (by norm_num)).mpr (by decide)

end UQLMGuard

namespace Gate

open PyStr

/-- C7: threshold enforcement returns `(True, None)` iff `score ≥ threshold`,
and otherwise `(False, reason)` with the two-decimal message
`"Output confidence {score:.2f} is below required threshold {threshold:.2f}"`;
in particular `enforce(0.6, 0.6) = (True, None)` and `enforce(0.59, 0.6)`
fails with a message containing `0.59` and `0.60`. -/
theorem enforce_confidence_threshold_spec (s t : ℚ) :
    (enforce_confidence_threshold s t = (true, none) ↔ t ≤ s) ∧
    (s < t → enforce_confidence_threshold s t =
      (false, some ("Output confidence " ++ formatFixed2 s ++
        " is below required threshold " ++ formatFixed2 t))) ∧
    enforce_confidence_threshold 0.6 0.6 = (true, none) ∧
    enforce_confidence_threshold 0.59 0.6 =
      (false, some "Output confidence 0.59 is below required threshold 0.60") := by
  refine ⟨?_, ?_, by with_unfolding_all decide, by with_unfolding_all decide⟩
  · rw [enforce_confidence_threshold]
    split
    · next h =>
      constructor
      · intro he
        exact absurd (congrArg Prod.fst he) (by simp)
      · intro hts
        exact absurd h (not_lt.mpr hts)
    · next h =>
      simp [not_lt.mp h]
  · intro hst
    rw [enforce_confidence_threshold, if_pos hst,
      String.append_assoc ("Output confidence " ++ formatFixed2 s) " is below "
        "required threshold "]
    rfl

/-- Witness for C7 at the doc example `enforce(0.42, 0.6)`. -/
theorem enforce_confidence_threshold_spec_witness :
    enforce_confidence_threshold 0.42 0.6 =
      (false, some ("Output confidence " ++ formatFixed2 0.42 ++
        " is below required threshold " ++ formatFixed2 0.6)) :=
  (enforce_confidence_threshold_spec 0.42 0.6).2.1 (by norm_num)

/-- C9: when the external collaborator raises, the evaluation makes exactly
one external call (no retry), returns no partial result, and surfaces a
single terminal failure wrapped with a message naming the failing external
stage; the outcome depends only on the first (single) collaborator call. -/
theorem evaluate_prompt_failure_spec (collab : String → Int → Nat → Except String ℚ)
    (prompt : String) (num_samples : Int) (e : String)
    (h : collab prompt num_samples 0 = Except.error e) :
    evaluate_prompt collab prompt num_samples =
      (Except.error ("UQLM evaluation failed: " ++ e), 1) ∧
    (∀ c : ℚ, (evaluate_prompt collab prompt num_samples).1 ≠ Except.ok c) ∧
    (∀ collab' : String → Int → Nat → Except String ℚ,
      collab' prompt num_samples 0 = collab prompt num_samples 0 →
      evaluate_prompt collab' prompt num_samples = evaluate_prompt collab prompt num_samples) := by
  refine ⟨?_, ?_, ?_⟩
  · rw [evaluate_prompt, h]
  · intro c
    rw [evaluate_prompt, h]
    simp
  · intro collab' hh
    rw [evaluate_prompt, evaluate_prompt, hh]

/-- Witness for C9 with a collaborator that always fails. -/
theorem evaluate_prompt_failure_spec_witness :
    evaluate_prompt (fun _ _ _ => Except.error "boom") "p" 5 =
      (Except.error ("UQLM evaluation failed: " ++ "boom"), 1) :=
  (evaluate_prompt_failure_spec (fun _ _ _ => Except.error "boom") "p" 5 "boom" rfl).1

/-- C8: an evaluation request with an empty or whitespace-only prompt, or a
sample count outside the configured 2-10 bounds, is rejected with a
validation error returned synchronously to the caller and zero external
generation/scoring calls; the outcome does not depend on the collaborator at
all. -/
theorem validation_before_external_spec (collab : String → Int → Nat → Except String ℚ)
    (req : EvaluationRequest)
    (h : (pyStrip req.prompt).data = [] ∨ req.num_samples < 2 ∨ 10 < req.num_samples) :
    (∃ e, validateRequest req = Except.error e ∧
      evaluate_endpoint collab req = (Except.error e, 0)) ∧
    (∀ collab' : String → Int → Nat → Except String ℚ,
      evaluate_endpoint collab req = evaluate_endpoint collab' req) := by
  have hval : ∃ e, validateRequest req = Except.error e := by
    rw [validateRequest]
    split
    · exact ⟨_, rfl⟩
    · split
      · exact ⟨_, rfl⟩
      · split
        · exact ⟨_, rfl⟩
        · split
          · exact ⟨_, rfl⟩
          · rename_i h1 h2 h3 h4
            rcases h with hp | hs
            · exact absurd hp h2
            · exact absurd hs h4
  obtain ⟨e, he⟩ := hval
  constructor
  · exact ⟨e, he, by rw [evaluate_endpoint, he]⟩
  · intro collab'
    rw [evaluate_endpoint, evaluate_endpoint, he]

/-- Witness for C8: a whitespace-only prompt is rejected before any external
call, whatever the collaborator would return. -/
theorem validation_before_external_spec_witness :
    ∃ e, validateRequest { prompt := "   ", min_confidence := 0.6, num_samples := 5 } =
        Except.error e ∧
      evaluate_endpoint (fun _ _ _ => Except.ok 1)
        { prompt := "   ", min_confidence := 0.6, num_samples := 5 } = (Except.error e, 0) :=
  (validation_before_external_spec (fun _ _ _ => Except.ok 1)
    { prompt := "   ", min_confidence := 0.6, num_samples := 5 } (Or.inl (by decide))).1

end Gate
